import Mathlib

/-!
Verification of the codec-cdn core (text / image / video codec formats).

The development shallowly embeds the TypeScript sources:
  * `src/codecs/text/tcf-codec.ts`  (class `TextCodec`)
  * `src/codecs/image/icf-codec.ts` (class `ImageCodec`)
  * `src/codecs/video/vcf-codec.ts` (class `VideoCodec`)

Conventions of the embedding:
  * Node `Buffer`s are `List Nat` of byte values (each < 256 where the source
    guarantees it; `Buffer.from(number[])` truncation is modelled by `% 256`).
  * JavaScript IEEE-754 numbers are modelled as exact rationals `ℚ`
    (`Math.round x` = `⌊x + 1/2⌋`, which is JavaScript's round-half-up).
  * `JSON.stringify` of the fixed-shape records the codecs serialize is
    modelled byte-exactly; `JSON.parse` is modelled by parsers that accept
    exactly the canonical spelling `JSON.stringify` emits (the only spelling
    the encoders ever produce).
  * Thrown exceptions become `Option`/`Except` failures.
  * Loops with a cursor become structural recursions; where the cursor skips
    a computed amount (the RLE compressor) the recursion carries fuel equal
    to the input length, which each step strictly exceeds consuming.
-/

/-! ### Generic byte-list helpers -/

/-- Decimal digit byte test: 48 ≤ d ≤ 57 (bytes of '0'..'9'). -/
def isDigitByte (d : Nat) : Bool := 48 ≤ d && d ≤ 57

/-- Value of a decimal digit string read most-significant first
    (the usual `acc * 10 + digit` fold a JSON number parser performs). -/
def decValue (ds : List Nat) : Nat := ds.foldl (fun a d => 10 * a + (d - 48)) 0

/-- Decimal printing of a natural number, fuel-indexed
    (fuel `n + 1` always suffices for `n`). Byte values of the digits. -/
def decOfNatAux : Nat → Nat → List Nat
  | 0, _ => []
  | f + 1, n => if n < 10 then [48 + n] else decOfNatAux f (n / 10) ++ [48 + n % 10]

/-- Decimal digits (as bytes) of `n`, the way `JSON.stringify` prints a
    nonnegative integer. -/
def decOfNat (n : Nat) : List Nat := decOfNatAux (n + 1) n

/-- Decimal digits of an integer: a leading `-` (byte 45) when negative. -/
def decOfInt (z : Int) : List Nat :=
  if z < 0 then 45 :: decOfNat z.natAbs else decOfNat z.toNat

/-- Strip an expected literal byte sequence from the front of the input;
    `none` when the input does not start with it (a `JSON.parse` syntax error). -/
def stripLit : List Nat → List Nat → Option (List Nat)
  | [], s => some s
  | _ :: _, [] => none
  | l :: ls, s :: ss => if l = s then stripLit ls ss else none

/-- Read a JSON string body up to (and consuming) the closing quote, byte 34.
    Models `JSON.parse` on the string contents the codecs emit (no escapes:
    headers hold ASCII magic tags and hex digests). -/
def readJsonStr (s : List Nat) : Option (List Nat × List Nat) :=
  let t := s.takeWhile (fun d => d != 34)
  if t.length = s.length then none else some (t, s.drop (t.length + 1))

/-- Read a JSON nonnegative integer: the leading run of digit bytes. -/
def readJsonNat (s : List Nat) : Option (Nat × List Nat) :=
  let ds := s.takeWhile isDigitByte
  if ds.isEmpty then none else some (decValue ds, s.drop ds.length)

/-- Read a JSON integer: an optional `-` then digits. -/
def readJsonInt (s : List Nat) : Option (Int × List Nat) :=
  match s with
  | 45 :: rest => (readJsonNat rest).map (fun p => (-(p.1 : Int), p.2))
  | _ => (readJsonNat s).map (fun p => ((p.1 : Int), p.2))

/-- Little-endian 4-byte encoding of a 32-bit length
    (`Buffer.writeUInt32LE`). -/
def u32le (n : Nat) : List Nat :=
  [n % 256, n / 256 % 256, n / 256 ^ 2 % 256, n / 256 ^ 3 % 256]

/-- Little-endian 4-byte read (`Buffer.readUInt32LE`); the argument is the
    4-byte slice. -/
def readU32le (l : List Nat) : Nat :=
  l.getD 0 0 + 256 * (l.getD 1 0 + 256 * (l.getD 2 0 + 256 * l.getD 3 0))

/-! ### TextCodec.simpleCompress / simpleDecompress (tcf-codec.ts 87-149)

`simpleCompress` walks the buffer; a run of more than 3 identical bytes is
emitted as the triple `0xFF, byte, runLength`, shorter runs are emitted
directly.  The `number[]` is turned into bytes by `Buffer.from`, which
truncates each entry modulo 256 (run lengths of 256 or more lose their high
bits).  `simpleDecompress` treats `0xFF` as a run marker whenever at least two
bytes follow it. -/

/-- Length of the leading run of `b` in the list
    (the inner `while` of `simpleCompress` counting consecutive bytes). -/
def countRun (b : Nat) : List Nat → Nat
  | [] => 0
  | x :: xs => if x = b then countRun b xs + 1 else 0

/-- The run-scanning loop of `TextCodec.simpleCompress`; fuel bounds the
    number of runs (the input length always suffices). -/
def simpleCompressGo : Nat → List Nat → List Nat
  | 0, _ => []
  | _, [] => []
  | fuel + 1, b :: rest =>
    let run := 1 + countRun b rest
    (if run > 3 then [255, b, run] else List.replicate run b) ++
      simpleCompressGo fuel (rest.drop (run - 1))

/-- `TextCodec.simpleCompress`: RLE with the `Buffer.from` modulo-256
    truncation applied to every emitted entry. -/
def simpleCompress (data : List Nat) : List Nat :=
  (simpleCompressGo data.length data).map (fun v => v % 256)

/-- `TextCodec.simpleDecompress`: byte 255 opens a run triple whenever two
    more bytes follow (`compressedData[i] === 0xFF && i + 2 < length`);
    otherwise bytes pass through. -/
def simpleDecompress : List Nat → List Nat
  | [] => []
  | 255 :: b :: n :: rest => List.replicate n b ++ simpleDecompress rest
  | x :: rest => x :: simpleDecompress rest

/-! ### TCFHeader and its JSON serialization (tcf-codec.ts 12-19, 154-166)

`createContainer` serializes the header with `JSON.stringify`, which for the
object literal of `encode` prints the fields in insertion order:
`{"magic":"…","version":N,"flags":N,"originalSize":N,"compressedSize":N,"checksum":"…"}`.
String fields are stored as their UTF-8 bytes; the values the codec writes
(the ASCII tag "TCF1" and hex SHA-256 digests) need no JSON escaping. -/

structure TCFHeader where
  magic : List Nat
  version : Nat
  flags : Nat
  originalSize : Nat
  compressedSize : Nat
  checksum : List Nat
deriving DecidableEq

/-- Bytes of `{"magic":"`. -/
def tcfLit1 : List Nat := [123, 34, 109, 97, 103, 105, 99, 34, 58, 34]
/-- Bytes of `,"version":`. -/
def tcfLit2 : List Nat := [44, 34, 118, 101, 114, 115, 105, 111, 110, 34, 58]
/-- Bytes of `,"flags":`. -/
def tcfLit3 : List Nat := [44, 34, 102, 108, 97, 103, 115, 34, 58]
/-- Bytes of `,"originalSize":`. -/
def tcfLit4 : List Nat := [44, 34, 111, 114, 105, 103, 105, 110, 97, 108, 83, 105, 122, 101, 34, 58]
/-- Bytes of `,"compressedSize":`. -/
def tcfLit5 : List Nat :=
  [44, 34, 99, 111, 109, 112, 114, 101, 115, 115, 101, 100, 83, 105, 122, 101, 34, 58]
/-- Bytes of `,"checksum":"`. -/
def tcfLit6 : List Nat := [44, 34, 99, 104, 101, 99, 107, 115, 117, 109, 34, 58, 34]

/-- `JSON.stringify(header)` as `createContainer` performs it, byte for byte. -/
def stringifyTCFHeader (h : TCFHeader) : List Nat :=
  tcfLit1 ++ h.magic ++ [34] ++ tcfLit2 ++ decOfNat h.version ++ tcfLit3 ++
    decOfNat h.flags ++ tcfLit4 ++ decOfNat h.originalSize ++ tcfLit5 ++
    decOfNat h.compressedSize ++ tcfLit6 ++ h.checksum ++ [34, 125]

/-- `JSON.parse` of the header slice, restricted to the canonical spelling
    `JSON.stringify` emits (the spelling `createContainer` always writes);
    any other input is a parse failure.  This under-approximates the real
    `JSON.parse`, which also accepts non-canonical spellings (whitespace,
    reordered keys); the model agrees with it on canonical headers (the
    container round trip) and on inputs that are not JSON under any reading,
    such as the single byte `x`.  No theorem equates this parser's failure
    set with the set of inputs on which `JSON.parse` throws. -/
def parseTCFHeader (s : List Nat) : Option TCFHeader :=
  (stripLit tcfLit1 s).bind fun s =>
  (readJsonStr s).bind fun (m, s) =>
  (stripLit tcfLit2 s).bind fun s =>
  (readJsonNat s).bind fun (ver, s) =>
  (stripLit tcfLit3 s).bind fun s =>
  (readJsonNat s).bind fun (fl, s) =>
  (stripLit tcfLit4 s).bind fun s =>
  (readJsonNat s).bind fun (os, s) =>
  (stripLit tcfLit5 s).bind fun s =>
  (readJsonNat s).bind fun (cs, s) =>
  (stripLit tcfLit6 s).bind fun s =>
  (readJsonStr s).bind fun (ck, s) =>
  (stripLit [125] s).bind fun s =>
  if s = [] then some ⟨m, ver, fl, os, cs, ck⟩ else none

/-- A string field `JSON.stringify` prints without escaping and the canonical
    parser reads back: no quote (34), no backslash (92), no control bytes. -/
def validJsonStr (s : List Nat) : Prop := ∀ b ∈ s, b ≠ 34 ∧ b ≠ 92 ∧ 32 ≤ b

instance : DecidablePred validJsonStr := fun s => by
  unfold validJsonStr; infer_instance

/-! ### Container framing (tcf-codec.ts 154-197, icf-codec.ts 356-394,
vcf-codec.ts 477-515)

All three codecs frame identically: 4 magic bytes, a 4-byte little-endian
header length, the JSON header, then the payload.  The three `parseContainer`
methods are line-for-line the same up to the magic constant and the header
record type, so they are modelled once, parameterized by both. -/

/-- `createContainer`: magic ++ u32le(header length) ++ header ++ payload. -/
def createContainerCore (magic headerBytes payload : List Nat) : List Nat :=
  magic ++ u32le headerBytes.length ++ headerBytes ++ payload

/-- `Buffer.toString('ascii')` on one byte: Node unsets the high bit, so the
    magic comparison sees each byte modulo 128 (buffer bytes are < 256). -/
def asciiByte (v : Nat) : Nat := v % 128

/-- `parseContainer` (identical in `TextCodec`, `ImageCodec`, `VideoCodec`):
    reject fewer than 8 framing bytes, a magic tag that differs from the
    constant after the `toString('ascii')` high-bit strip, or a declared
    header length past the end of the buffer; then `JSON.parse` the header
    slice and return it with the remaining bytes as the uninterpreted
    payload. -/
def parseContainerCore {H : Type} (magic : List Nat) (parseHeader : List Nat → Option H)
    (b : List Nat) : Option (H × List Nat) :=
  if b.length < 8 then none
  else if (b.take 4).map asciiByte ≠ magic then none
  else
    let headerSize := readU32le ((b.drop 4).take 4)
    if b.length < 8 + headerSize then none
    else
      match parseHeader ((b.drop 8).take headerSize) with
      | none => none
      | some h => some (h, b.drop (8 + headerSize))

/-- The ASCII magic tag "TCF1". -/
def tcfMagicBytes : List Nat := [84, 67, 70, 49]

/-- `TextCodec.createContainer`. -/
def tcfCreateContainer (h : TCFHeader) (payload : List Nat) : List Nat :=
  createContainerCore tcfMagicBytes (stringifyTCFHeader h) payload

/-- `TextCodec.parseContainer`. -/
def tcfParseContainer (b : List Nat) : Option (TCFHeader × List Nat) :=
  parseContainerCore tcfMagicBytes parseTCFHeader b

/-! ### ImageCodec: color transform (icf-codec.ts 117-174)

JavaScript numbers (and the `Float32Array` plane buffers) are modelled as
exact rationals; `Math.round` is `⌊x + 1/2⌋` (JavaScript rounds half toward
+∞), and the final byte store clamps to 0..255. -/

/-- `Math.round`. -/
def jsRound (q : ℚ) : ℤ := ⌊q + 1 / 2⌋

/-- `Math.max(0, Math.min(255, z))` followed by the byte store. -/
def clampByte (z : ℤ) : Nat := (max 0 (min 255 z)).toNat

/-- Loop body of `ImageCodec.rgbToYCoCg` for one pixel: normalize the three
    byte channels to 0..1 and apply the forward YCoCg transform, giving
    `(y, co, cg)`. -/
def rgbToYCoCgPixel (R G B : Nat) : ℚ × ℚ × ℚ :=
  let r : ℚ := (R : ℚ) / 255
  let g : ℚ := (G : ℚ) / 255
  let b : ℚ := (B : ℚ) / 255
  let co := r - b
  let t := b + co / 2
  let cg := g - t
  let y := t + cg / 2
  (y, co, cg)

/-- Loop body of `ImageCodec.ycocgToRgb` for one pixel: inverse YCoCg
    transform, scale by 255, `Math.round`, clamp to a byte. -/
def ycocgToRgbPixel (y co cg : ℚ) : Nat × Nat × Nat :=
  let t := y - cg / 2
  let g := cg + t
  let b := t - co / 2
  let r := b + co
  (clampByte (jsRound (r * 255)), clampByte (jsRound (g * 255)), clampByte (jsRound (b * 255)))

/-- `ImageCodec.rgbToYCoCg`: the pixel loop over an RGB(A) buffer given as a
    list of `(r, g, b)` triples (the source reads 3 of `channels` bytes per
    pixel, dropping any alpha), flattened to the `Float32Array` layout
    `[y, co, cg, y, co, cg, …]`. -/
def rgbToYCoCgFlat (pixels : List (Nat × Nat × Nat)) : List ℚ :=
  pixels.flatMap fun p =>
    [(rgbToYCoCgPixel p.1 p.2.1 p.2.2).1,
     (rgbToYCoCgPixel p.1 p.2.1 p.2.2).2.1,
     (rgbToYCoCgPixel p.1 p.2.1 p.2.2).2.2]

/-- The pixel loop of `ImageCodec.ycocgToRgb`: argument `i` is the pixel
    cursor, the second argument counts the remaining pixels.  Each pixel
    writes `r, g, b`, writes alpha 255 when `channels > 3`, and leaves any
    further channel bytes at the `Buffer.alloc` zero. -/
def ycocgToRgbGo (ycocgData : List ℚ) (channels : Nat) : Nat → Nat → List Nat
  | _, 0 => []
  | i, n + 1 =>
    let y := ycocgData.getD (3 * i) 0
    let co := ycocgData.getD (3 * i + 1) 0
    let cg := ycocgData.getD (3 * i + 2) 0
    let p := ycocgToRgbPixel y co cg
    ([p.1, p.2.1, p.2.2] ++ (if 3 < channels then [255] else []) ++
        List.replicate (channels - 4) 0) ++
      ycocgToRgbGo ycocgData channels (i + 1) n

/-- `ImageCodec.ycocgToRgb` over the flat YCoCg plane buffer. -/
def ycocgToRgb (ycocgData : List ℚ) (width height channels : Nat) : List Nat :=
  ycocgToRgbGo ycocgData channels 0 (width * height)

/-! ### ImageCodec: blocks, DCT placeholder, quantization (icf-codec.ts 26-32,
179-351) -/

structure ICFBlock where
  x : Nat
  y : Nat
  width : Nat
  height : Nat
  data : List Int
deriving DecidableEq

/-- The values taken by a `for (v = 0; v < size; v += 8)` loop. -/
def blockStarts (size : Nat) : List Nat := (List.range ((size + 7) / 8)).map (fun k => k * 8)

/-- The iteration order of the block loops: outer `y`, inner `x`, innermost
    channel 0..2. -/
def blockPositions (width height : Nat) : List (Nat × Nat × Nat) :=
  (blockStarts height).flatMap fun y =>
    (blockStarts width).flatMap fun x =>
      (List.range 3).map fun channel => (y, x, channel)

/-- `ImageCodec.extractBlock`: read one channel of a `blockWidth × blockHeight`
    tile out of the flat `[y, co, cg]` plane buffer. -/
def extractBlock (data : List ℚ) (width x y blockWidth blockHeight channel : Nat) : List ℚ :=
  (List.range blockHeight).flatMap fun r =>
    (List.range blockWidth).map fun c =>
      data.getD (((y + r) * width + (x + c)) * 3 + channel) 0

/-- `ImageCodec.placeBlock`: write the tile back into the flat plane buffer. -/
def placeBlock (data : List ℚ) (width x y blockWidth blockHeight channel : Nat)
    (blockData : List ℚ) : List ℚ :=
  (List.range blockHeight).foldl
    (fun acc r =>
      (List.range blockWidth).foldl
        (fun acc2 c =>
          acc2.set (((y + r) * width + (x + c)) * 3 + channel) (blockData.getD (r * blockWidth + c) 0))
        acc)
    data

/-- `ImageCodec.applyDCT`: the source's "simplified DCT" placeholder copies
    every coefficient unchanged. -/
def applyDCT (blockData : List ℚ) : List ℚ := blockData.map fun v => v

/-- `ImageCodec.applyInverseDCT`: likewise the identity copy. -/
def applyInverseDCT (dctData : List ℚ) : List ℚ := dctData.map fun v => v

/-- The quantization factor `quality < 50 ? 50 / quality : 2 - quality / 50`
    computed by `compressBlocks` and `decompressBlocks`. -/
def icfQFactor (quality : ℚ) : ℚ := if quality < 50 then 50 / quality else 2 - quality / 50

/-- Per-channel factor: luma (channel 0) uses `qFactor`, chroma `qFactor * 1.5`. -/
def channelQFactor (qFactor : ℚ) (channel : Nat) : ℚ :=
  if channel = 0 then qFactor else qFactor * (3 / 2)

/-- `ImageCodec.quantize`: `Math.round(v * channelQFactor)`. -/
def quantize (dctData : List ℚ) (qFactor : ℚ) (channel : Nat) : List Int :=
  dctData.map fun v => jsRound (v * channelQFactor qFactor channel)

/-- `ImageCodec.dequantize`: divide back by the same factor. -/
def dequantize (quantizedData : List Int) (qFactor : ℚ) (channel : Nat) : List ℚ :=
  quantizedData.map fun z => (z : ℚ) / channelQFactor qFactor channel

/-- `ImageCodec.compressBlocks`: tile the three planes, identity-DCT and
    quantize each tile. -/
def compressBlocks (ycocgData : List ℚ) (width height : Nat) (quality : ℚ) : List ICFBlock :=
  let qFactor := icfQFactor quality
  (blockPositions width height).map fun pos =>
    let y := pos.1
    let x := pos.2.1
    let channel := pos.2.2
    let blockWidth := min 8 (width - x)
    let blockHeight := min 8 (height - y)
    { x := x, y := y, width := blockWidth, height := blockHeight,
      data := quantize (applyDCT (extractBlock ycocgData width x y blockWidth blockHeight channel))
        qFactor channel }

/-- The sequential `blockIndex++` consumption of `ImageCodec.decompressBlocks`:
    positions still to visit, blocks still to consume, the plane buffer built
    so far.  Running out of blocks models the source crashing on
    `blocks[blockIndex]` being `undefined` (a decode failure); leftover blocks
    are ignored exactly as the source's loop bound ignores them. -/
def decompressBlocksGo (width height : Nat) (qFactor : ℚ) :
    List (Nat × Nat × Nat) → List ICFBlock → List ℚ → Option (List ℚ)
  | [], _, acc => some acc
  | _ :: _, [], _ => none
  | pos :: rest, blk :: blks, acc =>
    let y := pos.1
    let x := pos.2.1
    let channel := pos.2.2
    let blockWidth := min 8 (width - x)
    let blockHeight := min 8 (height - y)
    let spatialData := applyInverseDCT (dequantize blk.data qFactor channel)
    decompressBlocksGo width height qFactor rest blks
      (placeBlock acc width x y blockWidth blockHeight channel spatialData)

/-- `ImageCodec.decompressBlocks`: dequantize and place every tile into a
    zeroed `width * height * 3` plane buffer. -/
def decompressBlocks (blocks : List ICFBlock) (width height : Nat) (quality : ℚ) :
    Option (List ℚ) :=
  decompressBlocksGo width height (icfQFactor quality) (blockPositions width height) blocks
    (List.replicate (width * height * 3) 0)

/-- The block-decoding pipeline of `ImageCodec.decode` (lines 96-111): after
    the container and magic/version checks, deserialize gives `blocks`, then
    `decompressBlocks` then `ycocgToRgb`.  No step reads `header.checksum`. -/
def icfDecodePixels (blocks : List ICFBlock) (width height channels : Nat) (quality : ℚ) :
    Option (List Nat) :=
  (decompressBlocks blocks width height quality).map fun yc => ycocgToRgb yc width height channels

/-- Message of the only dimension guard `ImageCodec.encode` has
    (`Cannot determine image dimensions`, thrown on falsy width/height). -/
def errNoDimensions : String := "Cannot determine image dimensions"

/-- `ImageCodec.encode` up to the compressed blocks: the dimension guard on
    the metadata, then color transform and block compression.  The quality
    parameter is used, never range-checked. -/
def icfEncode (width height : Nat) (quality : ℚ) (pixels : List (Nat × Nat × Nat)) :
    Except String (List ICFBlock) :=
  if width = 0 ∨ height = 0 then .error errNoDimensions
  else .ok (compressBlocks (rgbToYCoCgFlat pixels) width height quality)

/-! ### VideoCodec: P-frame payloads (vcf-codec.ts 287-316, 350-373)

`compressPFrame` serializes `{type:'P', baseLength, diff, quality}` with
`JSON.stringify`; `decompressPFrame` parses it back inside a `try` whose
`catch` returns the reference frame. -/

structure PFramePayload where
  ptype : List Nat
  baseLength : Nat
  diff : List Int
  quality : Nat
deriving DecidableEq

/-- Bytes of `{"type":"`. -/
def pfLit1 : List Nat := [123, 34, 116, 121, 112, 101, 34, 58, 34]
/-- Bytes of `,"baseLength":`. -/
def pfLit2 : List Nat := [44, 34, 98, 97, 115, 101, 76, 101, 110, 103, 116, 104, 34, 58]
/-- Bytes of `,"diff":`. -/
def pfLit3 : List Nat := [44, 34, 100, 105, 102, 102, 34, 58]
/-- Bytes of `,"quality":`. -/
def pfLit4 : List Nat := [44, 34, 113, 117, 97, 108, 105, 116, 121, 34, 58]

/-- `JSON.stringify` of a JavaScript number array. -/
def jsonIntArray (l : List Int) : List Nat :=
  match l with
  | [] => [91, 93]
  | d :: ds => 91 :: (decOfInt d ++ ds.flatMap (fun x => 44 :: decOfInt x) ++ [93])

/-- `JSON.stringify(pFrameData)` as `compressPFrame` emits it, byte for byte. -/
def stringifyPFramePayload (pf : PFramePayload) : List Nat :=
  pfLit1 ++ pf.ptype ++ [34] ++ pfLit2 ++ decOfNat pf.baseLength ++ pfLit3 ++
    jsonIntArray pf.diff ++ pfLit4 ++ decOfNat pf.quality ++ [125]

/-- Element loop of a JSON array parse: an integer, then `,` to continue or
    `]` to stop.  Fuel bounds the element count (the input length suffices,
    every element consumes at least one byte). -/
def readJsonIntListGo : Nat → List Nat → Option (List Int × List Nat)
  | 0, _ => none
  | fuel + 1, s =>
    (readJsonInt s).bind fun p =>
      match p.2 with
      | 44 :: rest => (readJsonIntListGo fuel rest).map fun q => (p.1 :: q.1, q.2)
      | 93 :: rest => some ([p.1], rest)
      | _ => none

/-- `JSON.parse` of a number array in canonical spelling. -/
def readJsonIntList (s : List Nat) : Option (List Int × List Nat) :=
  match s with
  | 91 :: 93 :: rest => some ([], rest)
  | 91 :: rest => readJsonIntListGo rest.length rest
  | _ => none

/-- `JSON.parse(pFrameData.toString())` on the canonical spelling
    `compressPFrame` writes; anything else is a parse failure (the `catch`
    of `decompressPFrame` swallows it). -/
def parsePFramePayload (s : List Nat) : Option PFramePayload :=
  (stripLit pfLit1 s).bind fun s =>
  (readJsonStr s).bind fun (t, s) =>
  (stripLit pfLit2 s).bind fun s =>
  (readJsonNat s).bind fun (bl, s) =>
  (stripLit pfLit3 s).bind fun s =>
  (readJsonIntList s).bind fun (df, s) =>
  (stripLit pfLit4 s).bind fun s =>
  (readJsonNat s).bind fun (q, s) =>
  (stripLit [125] s).bind fun s =>
  if s = [] then some ⟨t, bl, df, q⟩ else none

/-- `VideoCodec.compressPFrame`: byte difference against the reference over
    the common length, scaled by `quality / 100` and rounded, serialized as
    the P-frame JSON payload. -/
def compressPFrame (currentFrame previousFrame : List Nat) (quality : Nat) : List Nat :=
  let minLength := min currentFrame.length previousFrame.length
  let diff : List Int :=
    (List.range minLength).map fun i =>
      (currentFrame.getD i 0 : Int) - (previousFrame.getD i 0 : Int)
  let qualityFactor : ℚ := (quality : ℚ) / 100
  let compressed := diff.map fun d => jsRound ((d : ℚ) * qualityFactor)
  stringifyPFramePayload ⟨[80], previousFrame.length, compressed, quality⟩

/-- `VideoCodec.decompressPFrame`: parse the payload and reconstruct
    `clamp(previous[i] + round(diff[i] / qualityFactor))` over
    `min(baseLength, previous.length)`, the rest of the `Buffer.alloc`
    staying zero.  Any parse failure — and the `type !== 'P'` throw — is
    swallowed by the `catch`, which returns `previousFrame` as the result. -/
def decompressPFrame (pFrameData previousFrame : List Nat) : List Nat :=
  match parsePFramePayload pFrameData with
  | none => previousFrame
  | some pf =>
    if pf.ptype ≠ [80] then previousFrame
    else
      let qualityFactor : ℚ := (pf.quality : ℚ) / 100
      (List.range pf.baseLength).map fun i =>
        if i < min pf.baseLength previousFrame.length then
          clampByte ((previousFrame.getD i 0 : Int) +
            jsRound (if i < pf.diff.length then (pf.diff.getD i 0 : ℚ) / qualityFactor else 0))
        else 0

/-! ### VideoCodec: frames, GOP structure, index (vcf-codec.ts 31-37, 246-282,
321-345, 404-431) -/

inductive FrameType where
  | I : FrameType
  | P : FrameType
deriving DecidableEq

structure VCFFrame where
  type : FrameType
  timestamp : ℚ
  size : Nat
  offset : Nat
  data : List Nat
deriving DecidableEq

/-- The GOP test `(i % gopSize === 0) ? 'I' : 'P'` of `encodeFrames`.
    JavaScript's `i % 0` is `NaN`, which compares unequal to 0, so a zero
    `gopSize` makes every frame a P-frame. -/
def frameTypeOf (i gopSize : Nat) : FrameType :=
  if gopSize ≠ 0 ∧ i % gopSize = 0 then FrameType.I else FrameType.P

/-- The frame loop of `VideoCodec.encodeFrames`: index, reference frame
    (`previousFrame`, updated only on I-frames), remaining frame buffers.
    An I-frame — or a P-frame with no reference yet — stores the frame
    bytes unchanged; otherwise `compressPFrame` runs.  Each pushed record
    carries `size = compressedData.length`, `offset = 0`. -/
def encodeFramesGo (quality : Nat) (fps : ℚ) (gopSize : Nat) :
    Nat → Option (List Nat) → List (List Nat) → List VCFFrame
  | _, _, [] => []
  | i, previousFrame, frameData :: rest =>
    let frameType := frameTypeOf i gopSize
    let compressedData :=
      match frameType, previousFrame with
      | FrameType.P, some prev => compressPFrame frameData prev quality
      | _, _ => frameData
    { type := frameType, timestamp := (i : ℚ) / fps * 1000,
      size := compressedData.length, offset := 0, data := compressedData } ::
      encodeFramesGo quality fps gopSize (i + 1)
        (if frameType = FrameType.I then some frameData else previousFrame) rest

/-- `VideoCodec.encodeFrames` over in-memory frame buffers. -/
def encodeFrames (frameDatas : List (List Nat)) (fps : ℚ) (quality gopSize : Nat) :
    List VCFFrame :=
  encodeFramesGo quality fps gopSize 0 none frameDatas

/-- Message of the reference guard in `VideoCodec.decodeFrames`. -/
def errMissingReference : String := "P-frame without previous I-frame"

/-- The frame loop of `VideoCodec.decodeFrames`: I-frames pass their data
    through and become the reference; P-frames require a reference (else the
    `MissingReference` throw) and go through `decompressPFrame`; the
    reference is not updated by P-frames. -/
def decodeFramesGo : Option (List Nat) → List VCFFrame → Except String (List (List Nat))
  | _, [] => Except.ok []
  | previousFrame, f :: rest =>
    match f.type with
    | FrameType.I => (decodeFramesGo (some f.data) rest).map fun ds => f.data :: ds
    | FrameType.P =>
      match previousFrame with
      | none => Except.error errMissingReference
      | some prev =>
        (decodeFramesGo previousFrame rest).map fun ds => decompressPFrame f.data prev :: ds

/-- `VideoCodec.decodeFrames`, collecting the decoded frame buffers. -/
def decodeFrames (frames : List VCFFrame) : Except String (List (List Nat)) :=
  decodeFramesGo none frames

structure VCFIndexEntry where
  type : FrameType
  timestamp : ℚ
  size : Nat
  offset : Nat
deriving DecidableEq

/-- The offset-assignment loop of `VideoCodec.serializeFrames`: entry `i`
    gets the running `currentOffset`, which then advances by
    `frames[i].data.length`. -/
def buildFrameIndex : Nat → List VCFFrame → List VCFIndexEntry
  | _, [] => []
  | currentOffset, f :: rest =>
    { type := f.type, timestamp := f.timestamp, size := f.size, offset := currentOffset } ::
      buildFrameIndex (currentOffset + f.data.length) rest

/-- The frame index `VideoCodec.serializeFrames` serializes (offsets start
    at 0). -/
def serializeFrameIndex (frames : List VCFFrame) : List VCFIndexEntry :=
  buildFrameIndex 0 frames

/-- `Buffer.concat(frames.map(f => f.data))`: the frame-payload region that
    follows the serialized index. -/
def allFrameData (frames : List VCFFrame) : List Nat := (frames.map fun f => f.data).flatten

/-! ### Concrete inputs used by witnesses and counterexamples -/

/-- A header record as `TextCodec.encode` builds one: magic "TCF1",
    version 1, flags 0, sizes, a (shortened) digest string "ab". -/
def sampleTCFHeader : TCFHeader := ⟨[84, 67, 70, 49], 1, 0, 3, 2, [97, 98]⟩

/-- A buffer passing all three documented `parseContainer` checks whose
    1-byte header slice `x` (byte 120) is not JSON. -/
def tcfFourthFailureInput : List Nat := tcfMagicBytes ++ [1, 0, 0, 0, 120]

/-- The three 1×1 blocks `ImageCodec.encode` produces for a uniform gray
    (128,128,128) pixel at quality 85: every quantized coefficient is 0. -/
def grayBlocks : List ICFBlock := [⟨0, 0, 1, 1, [0]⟩, ⟨0, 0, 1, 1, [0]⟩, ⟨0, 0, 1, 1, [0]⟩]

/-- `grayBlocks` after flipping one payload byte of the serialized container:
    the luma coefficient digit `0` becomes `9`. -/
def grayBlocksFlipped : List ICFBlock := [⟨0, 0, 1, 1, [9]⟩, ⟨0, 0, 1, 1, [0]⟩, ⟨0, 0, 1, 1, [0]⟩]

/-- An I-frame followed by a P-frame whose payload (the single byte `{`)
    fails to parse as a residual. -/
def vcfCorruptPFrames : List VCFFrame :=
  [⟨FrameType.I, 0, 1, 0, [7]⟩, ⟨FrameType.P, 0, 1, 0, [123]⟩]

/-- Decidable equality of `Except` results, for evaluating the embedded
    decoders at concrete inputs. -/
instance {E A : Type} [DecidableEq E] [DecidableEq A] : DecidableEq (Except E A) := fun x y =>
  match x, y with
  | Except.ok a, Except.ok b =>
    if h : a = b then Decidable.isTrue (by rw [h]) else Decidable.isFalse (by simp [h])
  | Except.error a, Except.error b =>
    if h : a = b then Decidable.isTrue (by rw [h]) else Decidable.isFalse (by simp [h])
  | Except.ok _, Except.error _ => Decidable.isFalse (by simp)
  | Except.error _, Except.ok _ => Decidable.isFalse (by simp)

/-! ## Theorems -/

/-! ### Round-trip lemmas for the canonical JSON machinery -/

theorem stripLit_append (lit r : List Nat) : stripLit lit (lit ++ r) = some r := by
  induction lit with
  | nil => rfl
  | cons x xs ih => simp [stripLit, ih]

theorem takeWhile_append_of_all {p : Nat → Bool} {a : List Nat} (b : List Nat)
    (h : ∀ x ∈ a, p x = true) : (a ++ b).takeWhile p = a ++ b.takeWhile p := by
  induction a with
  | nil => rfl
  | cons x xs ih =>
    simp only [List.cons_append, List.takeWhile_cons, h x (by simp)]
    simp [ih fun y hy => h y (by simp [hy])]

theorem drop_length_append (a b : List Nat) : (a ++ b).drop a.length = b := by
  induction a with
  | nil => rfl
  | cons x xs ih => simpa using ih

theorem take_length_append (a b : List Nat) : (a ++ b).take a.length = a := by
  induction a with
  | nil => rfl
  | cons x xs ih => simpa using ih

theorem readJsonStr_append (a r : List Nat) (ha : ∀ x ∈ a, x ≠ 34) :
    readJsonStr (a ++ 34 :: r) = some (a, r) := by
  have hall : ∀ x ∈ a, (fun d => d != 34) x = true := by
    intro x hx
    simpa using ha x hx
  have htw : (a ++ 34 :: r).takeWhile (fun d => d != 34) = a := by
    rw [takeWhile_append_of_all (34 :: r) hall]
    simp [List.takeWhile_cons]
  have hlen : a.length ≠ (a ++ 34 :: r).length := by
    simp
  have hdrop : (a ++ 34 :: r).drop (a.length + 1) = r := by
    have h1 : a ++ 34 :: r = (a ++ [34]) ++ r := by simp
    have h2 : a.length + 1 = (a ++ [34]).length := by simp
    rw [h1, h2, drop_length_append]
  simp only [readJsonStr]
  rw [htw, if_neg hlen, hdrop]

theorem decValue_append_digit (a : List Nat) (d : Nat) :
    decValue (a ++ [d]) = 10 * decValue a + (d - 48) := by
  simp [decValue, List.foldl_append]

theorem decOfNatAux_digits (fuel n : Nat) (h : n < fuel) :
    ∀ d ∈ decOfNatAux fuel n, isDigitByte d = true := by
  induction fuel generalizing n with
  | zero => omega
  | succ f ih =>
    intro d hd
    simp only [decOfNatAux] at hd
    by_cases hn : n < 10
    · simp [hn] at hd
      subst hd
      simp [isDigitByte]
      omega
    · rw [if_neg hn] at hd
      rcases List.mem_append.mp hd with h1 | h2
      · exact ih (n / 10) (by omega) d h1
      · simp at h2
        subst h2
        have : n % 10 < 10 := Nat.mod_lt _ (by omega)
        simp [isDigitByte]
        omega

theorem decOfNat_digits (n : Nat) : ∀ d ∈ decOfNat n, isDigitByte d = true :=
  decOfNatAux_digits (n + 1) n (Nat.lt_succ_self n)

theorem decOfNatAux_ne_nil (fuel n : Nat) (h : n < fuel) : decOfNatAux fuel n ≠ [] := by
  cases fuel with
  | zero => omega
  | succ f =>
    simp only [decOfNatAux]
    by_cases hn : n < 10
    · simp [hn]
    · rw [if_neg hn]
      simp

theorem decValue_decOfNatAux (fuel n : Nat) (h : n < fuel) :
    decValue (decOfNatAux fuel n) = n := by
  induction fuel generalizing n with
  | zero => omega
  | succ f ih =>
    simp only [decOfNatAux]
    by_cases hn : n < 10
    · simp [hn, decValue]
    · rw [if_neg hn, decValue_append_digit, ih (n / 10) (by omega)]
      omega

theorem decValue_decOfNat (n : Nat) : decValue (decOfNat n) = n :=
  decValue_decOfNatAux (n + 1) n (Nat.lt_succ_self n)

theorem readJsonNat_append (n : Nat) (r : List Nat)
    (hr : r.takeWhile isDigitByte = []) :
    readJsonNat (decOfNat n ++ r) = some (n, r) := by
  have htw : (decOfNat n ++ r).takeWhile isDigitByte = decOfNat n := by
    rw [takeWhile_append_of_all r (decOfNat_digits n), hr, List.append_nil]
  have hne : decOfNat n ≠ [] := decOfNatAux_ne_nil (n + 1) n (Nat.lt_succ_self n)
  simp only [readJsonNat, htw]
  rw [if_neg (by simpa [List.isEmpty_iff] using hne)]
  rw [decValue_decOfNat, drop_length_append]

theorem takeWhile_isDigitByte_comma (t : List Nat) :
    (44 :: t).takeWhile isDigitByte = [] := by
  simp [List.takeWhile_cons]
  decide

theorem tw_tcfLit3 (X : List Nat) : (tcfLit3 ++ X).takeWhile isDigitByte = [] :=
  takeWhile_isDigitByte_comma _

theorem tw_tcfLit4 (X : List Nat) : (tcfLit4 ++ X).takeWhile isDigitByte = [] :=
  takeWhile_isDigitByte_comma _

theorem tw_tcfLit5 (X : List Nat) : (tcfLit5 ++ X).takeWhile isDigitByte = [] :=
  takeWhile_isDigitByte_comma _

theorem tw_tcfLit6 (X : List Nat) : (tcfLit6 ++ X).takeWhile isDigitByte = [] :=
  takeWhile_isDigitByte_comma _

theorem parseTCFHeader_stringify (h : TCFHeader)
    (hm : validJsonStr h.magic) (hc : validJsonStr h.checksum) :
    parseTCFHeader (stringifyTCFHeader h) = some h := by
  have hm' : ∀ x ∈ h.magic, x ≠ 34 := fun x hx => (hm x hx).1
  have hc' : ∀ x ∈ h.checksum, x ≠ 34 := fun x hx => (hc x hx).1
  simp only [stringifyTCFHeader, parseTCFHeader, List.append_assoc]
  rw [stripLit_append]
  simp only [Option.some_bind]
  rw [show ([34] : List Nat) ++ (tcfLit2 ++ (decOfNat h.version ++ (tcfLit3 ++
        (decOfNat h.flags ++ (tcfLit4 ++ (decOfNat h.originalSize ++ (tcfLit5 ++
        (decOfNat h.compressedSize ++ (tcfLit6 ++ (h.checksum ++ [34, 125])))))))))) =
      34 :: (tcfLit2 ++ (decOfNat h.version ++ (tcfLit3 ++
        (decOfNat h.flags ++ (tcfLit4 ++ (decOfNat h.originalSize ++ (tcfLit5 ++
        (decOfNat h.compressedSize ++ (tcfLit6 ++ (h.checksum ++ [34, 125])))))))))) from rfl]
  rw [readJsonStr_append _ _ hm']
  simp only [Option.some_bind]
  rw [stripLit_append]
  simp only [Option.some_bind]
  rw [readJsonNat_append _ _ (tw_tcfLit3 _)]
  simp only [Option.some_bind]
  rw [stripLit_append]
  simp only [Option.some_bind]
  rw [readJsonNat_append _ _ (tw_tcfLit4 _)]
  simp only [Option.some_bind]
  rw [stripLit_append]
  simp only [Option.some_bind]
  rw [readJsonNat_append _ _ (tw_tcfLit5 _)]
  simp only [Option.some_bind]
  rw [stripLit_append]
  simp only [Option.some_bind]
  rw [readJsonNat_append _ _ (tw_tcfLit6 _)]
  simp only [Option.some_bind]
  rw [stripLit_append]
  simp only [Option.some_bind]
  rw [show h.checksum ++ [34, 125] = h.checksum ++ 34 :: [125] from rfl]
  rw [readJsonStr_append _ _ hc']
  simp only [Option.some_bind]
  simp [stripLit]

theorem readU32le_u32le (n : Nat) (h : n < 2 ^ 32) : readU32le (u32le n) = n := by
  simp [readU32le, u32le]
  omega

theorem parseContainerCore_roundtrip {H : Type} (magic : List Nat)
    (parseHeader : List Nat → Option H) (h : H) (hb payload : List Nat)
    (hmagic : magic.length = 4) (hmask : magic.map asciiByte = magic)
    (hlen : hb.length < 2 ^ 32) (hph : parseHeader hb = some h) :
    parseContainerCore magic parseHeader (createContainerCore magic hb payload) =
      some (h, payload) := by
  have hu : (u32le hb.length).length = 4 := by simp [u32le]
  set b := createContainerCore magic hb payload with hbdef
  have e1 : b = magic ++ (u32le hb.length ++ (hb ++ payload)) := by
    simp [hbdef, createContainerCore]
  have hblen : b.length = 8 + hb.length + payload.length := by
    rw [e1]
    simp [hu, hmagic]
    omega
  have htake4 : b.take 4 = magic := by
    rw [e1, ← hmagic, take_length_append]
  have hdrop4 : b.drop 4 = u32le hb.length ++ (hb ++ payload) := by
    rw [e1, ← hmagic, drop_length_append]
  have hslice : (b.drop 4).take 4 = u32le hb.length := by
    rw [hdrop4, ← hu, take_length_append]
  have hsz : readU32le ((b.drop 4).take 4) = hb.length := by
    rw [hslice, readU32le_u32le _ hlen]
  have e2 : b = (magic ++ u32le hb.length) ++ (hb ++ payload) := by
    rw [e1]
    simp
  have hdrop8 : b.drop 8 = hb ++ payload := by
    rw [e2, show (8 : Nat) = (magic ++ u32le hb.length).length by simp [hmagic, hu],
      drop_length_append]
  have hhdr : (b.drop 8).take hb.length = hb := by
    rw [hdrop8, take_length_append]
  have e3 : b = ((magic ++ u32le hb.length) ++ hb) ++ payload := by
    rw [e1]
    simp
  have hdroppay : b.drop (8 + hb.length) = payload := by
    rw [e3, show 8 + hb.length = ((magic ++ u32le hb.length) ++ hb).length by
      simp [hmagic, hu]
      omega, drop_length_append]
  simp only [parseContainerCore]
  rw [if_neg (by omega), if_neg (by simp [htake4, hmask]), hsz, if_neg (by omega), hhdr, hph,
    hdroppay]

/-- Claim C5: container framing round-trips — for every valid header record
    (string fields needing no JSON escaping, header JSON shorter than 2^32
    bytes) and every payload, `parseContainer (createContainer h p)` returns
    exactly `(h, p)`. -/
theorem tcf_container_roundtrip (h : TCFHeader) (payload : List Nat)
    (hm : validJsonStr h.magic) (hc : validJsonStr h.checksum)
    (hlen : (stringifyTCFHeader h).length < 2 ^ 32) :
    tcfParseContainer (tcfCreateContainer h payload) = some (h, payload) :=
  parseContainerCore_roundtrip tcfMagicBytes parseTCFHeader h (stringifyTCFHeader h) payload
    (by decide) (by decide) hlen (parseTCFHeader_stringify h hm hc)

/-- Witness for C5 at a concrete header and payload. -/
theorem tcf_container_roundtrip_witness :
    validJsonStr sampleTCFHeader.magic ∧ validJsonStr sampleTCFHeader.checksum ∧
      (stringifyTCFHeader sampleTCFHeader).length < 2 ^ 32 ∧
      tcfParseContainer (tcfCreateContainer sampleTCFHeader [9, 8, 7]) =
        some (sampleTCFHeader, [9, 8, 7]) :=
  ⟨by decide, by decide, by decide,
    tcf_container_roundtrip sampleTCFHeader [9, 8, 7] (by decide) (by decide) (by decide)⟩

/-- Claim C6 (amended): container unpacking — the same code in
    `TextCodec.parseContainer`, `ImageCodec.parseContainer` and
    `VideoCodec.parseContainer` — fails with an error in each of the three
    listed situations: fewer than 8 framing bytes, a magic tag that (after
    the `toString('ascii')` high-bit strip the source's comparison goes
    through) differs from the constant, and a declared header length
    exceeding the remaining buffer; it also fails — a fourth situation the
    claim's "exactly three" omits — whenever the header slice fails to
    parse as a header record; and when it succeeds, the payload it returns
    is exactly the remaining bytes after the header, uninterpreted.  (Only
    these failure directions are claimed: the converse — that nothing else
    fails — is not, since the header parse is modelled on the canonical
    `JSON.stringify` spelling only.) -/
theorem parseContainer_failure_modes :
    (∀ (H : Type) (magic : List Nat) (parseHeader : List Nat → Option H) (b : List Nat),
      b.length < 8 → parseContainerCore magic parseHeader b = none) ∧
    (∀ (H : Type) (magic : List Nat) (parseHeader : List Nat → Option H) (b : List Nat),
      (b.take 4).map asciiByte ≠ magic → parseContainerCore magic parseHeader b = none) ∧
    (∀ (H : Type) (magic : List Nat) (parseHeader : List Nat → Option H) (b : List Nat),
      b.length < 8 + readU32le ((b.drop 4).take 4) →
      parseContainerCore magic parseHeader b = none) ∧
    (∀ (H : Type) (magic : List Nat) (parseHeader : List Nat → Option H) (b : List Nat),
      parseHeader ((b.drop 8).take (readU32le ((b.drop 4).take 4))) = none →
      parseContainerCore magic parseHeader b = none) ∧
    (∀ (H : Type) (magic : List Nat) (parseHeader : List Nat → Option H) (b : List Nat)
      (h : H) (payload : List Nat),
      parseContainerCore magic parseHeader b = some (h, payload) →
      payload = b.drop (8 + readU32le ((b.drop 4).take 4))) := by
  refine ⟨?_, ?_, ?_, ?_, ?_⟩
  · intro H magic parseHeader b h1
    simp [parseContainerCore, h1]
  · intro H magic parseHeader b h2
    simp only [parseContainerCore]
    by_cases h1 : b.length < 8
    · simp [h1]
    · rw [if_neg h1, if_pos h2]
  · intro H magic parseHeader b h3
    simp only [parseContainerCore]
    by_cases h1 : b.length < 8
    · simp [h1]
    · rw [if_neg h1]
      by_cases h2 : (b.take 4).map asciiByte ≠ magic
      · rw [if_pos h2]
      · rw [if_neg h2, if_pos h3]
  · intro H magic parseHeader b hph
    simp only [parseContainerCore]
    by_cases h1 : b.length < 8
    · simp [h1]
    · rw [if_neg h1]
      by_cases h2 : (b.take 4).map asciiByte ≠ magic
      · rw [if_pos h2]
      · rw [if_neg h2]
        by_cases h3 : b.length < 8 + readU32le ((b.drop 4).take 4)
        · rw [if_pos h3]
        · rw [if_neg h3, hph]
  · intro H magic parseHeader b h payload hsucc
    simp only [parseContainerCore] at hsucc
    by_cases h1 : b.length < 8
    · simp [h1] at hsucc
    · rw [if_neg h1] at hsucc
      by_cases h2 : (b.take 4).map asciiByte ≠ magic
      · rw [if_pos h2] at hsucc
        exact absurd hsucc (by simp)
      · rw [if_neg h2] at hsucc
        by_cases h3 : b.length < 8 + readU32le ((b.drop 4).take 4)
        · rw [if_pos h3] at hsucc
          exact absurd hsucc (by simp)
        · rw [if_neg h3] at hsucc
          cases hph : parseHeader ((b.drop 8).take (readU32le ((b.drop 4).take 4))) with
          | none =>
            rw [hph] at hsucc
            exact absurd hsucc (by simp)
          | some hh =>
            rw [hph] at hsucc
            simp only [Option.some_inj, Prod.mk.injEq] at hsucc
            exact hsucc.2.symm

/-- Counterexample to C6 as stated: `tcfFourthFailureInput` passes all three
    listed checks — it is 9 bytes long, carries the exact magic "TCF1"
    (hence also matches after the `toString('ascii')` high-bit strip) and
    declares a 1-byte header that fits — yet `parseContainer` fails on it,
    because its header slice (the byte `x`) is not JSON under any reading:
    `JSON.parse('x')` throws.  A fourth failure situation. -/
theorem tcf_parse_not_exactly_three_failures :
    tcfParseContainer tcfFourthFailureInput = none ∧
      ¬ tcfFourthFailureInput.length < 8 ∧
      tcfFourthFailureInput.take 4 = tcfMagicBytes ∧
      (tcfFourthFailureInput.take 4).map asciiByte = tcfMagicBytes ∧
      ¬ tcfFourthFailureInput.length <
          8 + readU32le ((tcfFourthFailureInput.drop 4).take 4) := by decide

/-- Claim C1 (refuted; the code is the bug): the text compression pipeline is
    not lossless.  A literal 0xFF byte followed by two more bytes is re-read
    as a run marker — `[255, 1, 2]` comes back as `[1, 1]` — and a run of
    256 identical bytes has its length truncated modulo 256 by `Buffer.from`,
    coming back empty.  `TextCodec.decode` therefore fails its own checksum
    check on `TextCodec.encode`'s output for such inputs instead of returning
    the original bytes. -/
theorem tcf_roundtrip_broken :
    simpleDecompress (simpleCompress [255, 1, 2]) = [1, 1] ∧
      simpleDecompress (simpleCompress [255, 1, 2]) ≠ [255, 1, 2] ∧
      simpleDecompress (simpleCompress (List.replicate 256 97)) = [] := by
  refine ⟨by decide, by decide, ?_⟩
  set_option maxRecDepth 4000 in decide

/-- Claim C2 (refuted; the code is the bug): a P-frame whose residual payload
    fails to decode does not raise a hard failure.  With reference frame
    `[7]` and a P-frame payload of the single byte `{` (unparseable JSON),
    `decodeFrames` succeeds and silently returns the previous reference
    frame as the decoded P-frame — the `catch` fallback of
    `decompressPFrame`. -/
theorem vcf_pframe_silent_fallback :
    decodeFrames vcfCorruptPFrames = Except.ok [[7], [7]] ∧
      decompressPFrame [123] [7] = [7] ∧ parsePFramePayload [123] = none := by decide

/-- Claim C3 (refuted for the image path; the code is the bug):
    `ImageCodec.decode` never verifies `header.checksum`, so a single-byte
    payload modification can decode successfully to different content.
    Flipping the one digit `0` to `9` in the serialized luma block of a
    valid 1×1 quality-85 container (`grayBlocks`, exactly what `encode`
    produces for a uniform (128,128,128) pixel) still decodes — to
    (255,255,255) instead of (0,0,0). -/
theorem icf_single_byte_flip_not_detected :
    icfEncode 1 1 85 [(128, 128, 128)] = Except.ok grayBlocks ∧
      (icfDecodePixels grayBlocksFlipped 1 1 3 85).isSome = true ∧
      icfDecodePixels grayBlocksFlipped 1 1 3 85 ≠ icfDecodePixels grayBlocks 1 1 3 85 := by
  with_unfolding_all decide

/-- Claim C4 (refuted for quality; the code is the bug): `ImageCodec.encode`
    never range-checks the quality parameter — it compresses happily at
    quality 150 (a negative quantization factor) and at quality −5 — while
    zero width or height is rejected (with the error message
    `Cannot determine image dimensions`). -/
theorem icf_encode_accepts_out_of_range_quality :
    (icfEncode 1 1 150 [(128, 128, 128)]).isOk = true ∧
      (icfEncode 1 1 (-5) [(128, 128, 128)]).isOk = true ∧
      (icfEncode 0 1 85 []).isOk = false := by decide

theorem encodeFramesGo_get_type (quality : Nat) (fps : ℚ) (gopSize : Nat)
    (frameDatas : List (List Nat)) :
    ∀ (i0 : Nat) (prev : Option (List Nat)) (i : Nat), i < frameDatas.length →
      ((encodeFramesGo quality fps gopSize i0 prev frameDatas)[i]?).map VCFFrame.type =
        some (frameTypeOf (i0 + i) gopSize) := by
  induction frameDatas with
  | nil =>
    intro i0 prev i hi
    simp at hi
  | cons d rest ih =>
    intro i0 prev i hi
    cases i with
    | zero => simp [encodeFramesGo]
    | succ j =>
      simp only [encodeFramesGo, List.getElem?_cons_succ]
      rw [ih (i0 + 1) _ j (by simpa using hi)]
      rw [show i0 + 1 + j = i0 + (j + 1) from by omega]

/-- Claim C7: GOP structure — for every frame sequence and every
    `gopSize ≥ 1`, the encoder assigns frame `i` type I exactly when
    `i % gopSize = 0` (so frame 0 is always type I). -/
theorem vcf_gop_structure (frameDatas : List (List Nat)) (fps : ℚ)
    (quality gopSize i : Nat) (hg : 1 ≤ gopSize) (hi : i < frameDatas.length) :
    ((encodeFrames frameDatas fps quality gopSize)[i]?).map VCFFrame.type =
      some (if i % gopSize = 0 then FrameType.I else FrameType.P) := by
  rw [encodeFrames, encodeFramesGo_get_type quality fps gopSize frameDatas 0 none i hi]
  have hz : gopSize ≠ 0 := by omega
  simp [frameTypeOf, hz]

/-- Witness for C7: with `gopSize = 3`, frame 3 of a 4-frame sequence is an
    I-frame and frame 0 is an I-frame. -/
theorem vcf_gop_structure_witness :
    1 ≤ 3 ∧ (3 : Nat) < ([[7], [7], [7], [7]] : List (List Nat)).length ∧
      (0 : Nat) < ([[7], [7], [7], [7]] : List (List Nat)).length ∧
      ((encodeFrames [[7], [7], [7], [7]] 30 85 3)[3]?).map VCFFrame.type =
        some (if 3 % 3 = 0 then FrameType.I else FrameType.P) ∧
      ((encodeFrames [[7], [7], [7], [7]] 30 85 3)[0]?).map VCFFrame.type =
        some (if 0 % 3 = 0 then FrameType.I else FrameType.P) :=
  ⟨by decide, by decide, by decide,
    vcf_gop_structure [[7], [7], [7], [7]] 30 85 3 3 (by decide) (by decide),
    vcf_gop_structure [[7], [7], [7], [7]] 30 85 3 0 (by decide) (by decide)⟩

theorem buildFrameIndex_offset (frames : List VCFFrame) :
    ∀ (start i : Nat) (e : VCFIndexEntry), (buildFrameIndex start frames)[i]? = some e →
      e.offset = start + ((frames.take i).map (fun f => f.data.length)).sum := by
  induction frames with
  | nil =>
    intro start i e he
    simp [buildFrameIndex] at he
  | cons f rest ih =>
    intro start i e he
    cases i with
    | zero =>
      simp only [buildFrameIndex, List.getElem?_cons_zero, Option.some_inj] at he
      simp [← he]
    | succ j =>
      simp only [buildFrameIndex, List.getElem?_cons_succ] at he
      rw [ih (start + f.data.length) j e he]
      simp [List.take_succ_cons]
      omega

theorem buildFrameIndex_sizes (frames : List VCFFrame)
    (hsz : ∀ f ∈ frames, f.size = f.data.length) :
    ∀ start : Nat, ((buildFrameIndex start frames).map (fun e => e.size)).sum =
      (allFrameData frames).length := by
  induction frames with
  | nil =>
    intro start
    simp [buildFrameIndex, allFrameData]
  | cons f rest ih =>
    intro start
    have hf : f.size = f.data.length := hsz f (by simp)
    have hr : ∀ g ∈ rest, g.size = g.data.length := fun g hg => hsz g (by simp [hg])
    simp only [buildFrameIndex, List.map_cons, List.sum_cons, allFrameData, List.map_cons,
      List.flatten_cons, List.length_append]
    rw [ih hr (start + f.data.length)]
    simp [allFrameData, hf]

theorem buildFrameIndex_head_offset (f : VCFFrame) (rest : List VCFFrame) (start : Nat) :
    ((buildFrameIndex start (f :: rest)).head?).map VCFIndexEntry.offset = some start := by
  simp [buildFrameIndex]

theorem buildFrameIndex_chain (frames : List VCFFrame)
    (hsz : ∀ f ∈ frames, f.size = f.data.length) (hne : ∀ f ∈ frames, f.data ≠ []) :
    ∀ start : Nat, (buildFrameIndex start frames).Chain'
      (fun a b => b.offset = a.offset + a.size ∧ a.offset < b.offset) := by
  induction frames with
  | nil =>
    intro start
    simp [buildFrameIndex]
  | cons f rest ih =>
    intro start
    have hf : f.size = f.data.length := hsz f (by simp)
    have hfne : f.data ≠ [] := hne f (by simp)
    have hr : ∀ g ∈ rest, g.size = g.data.length := fun g hg => hsz g (by simp [hg])
    have hrne : ∀ g ∈ rest, g.data ≠ [] := fun g hg => hne g (by simp [hg])
    have hpos : 0 < f.data.length := List.length_pos.mpr hfne
    cases rest with
    | nil => simp [buildFrameIndex]
    | cons g grest =>
      rw [show buildFrameIndex start (f :: g :: grest) =
        ⟨f.type, f.timestamp, f.size, start⟩ ::
          buildFrameIndex (start + f.data.length) (g :: grest) from rfl]
      rw [List.chain'_cons']
      constructor
      · intro y hy
        rw [show buildFrameIndex (start + f.data.length) (g :: grest) =
          ⟨g.type, g.timestamp, g.size, start + f.data.length⟩ ::
            buildFrameIndex (start + f.data.length + g.data.length) grest from rfl] at hy
        simp only [List.head?_cons, Option.mem_def, Option.some_inj] at hy
        subst hy
        constructor
        · simp [hf]
        · simp
          omega
      · exact ih hr hrne (start + f.data.length)

theorem encodeFramesGo_size_eq (quality : Nat) (fps : ℚ) (gopSize : Nat)
    (frameDatas : List (List Nat)) :
    ∀ (i0 : Nat) (prev : Option (List Nat)),
      ∀ f ∈ encodeFramesGo quality fps gopSize i0 prev frameDatas, f.size = f.data.length := by
  induction frameDatas with
  | nil =>
    intro i0 prev f hf
    simp [encodeFramesGo] at hf
  | cons d rest ih =>
    intro i0 prev f hf
    simp only [encodeFramesGo, List.mem_cons] at hf
    rcases hf with hf | hf
    · subst hf
      rfl
    · exact ih (i0 + 1) _ f hf

theorem stringifyPFramePayload_ne_nil (pf : PFramePayload) : stringifyPFramePayload pf ≠ [] := by
  simp [stringifyPFramePayload, pfLit1]

theorem encodeFramesGo_data_ne (quality : Nat) (fps : ℚ) (gopSize : Nat)
    (frameDatas : List (List Nat)) (hne : ∀ d ∈ frameDatas, d ≠ []) :
    ∀ (i0 : Nat) (prev : Option (List Nat)),
      ∀ f ∈ encodeFramesGo quality fps gopSize i0 prev frameDatas, f.data ≠ [] := by
  induction frameDatas with
  | nil =>
    intro i0 prev f hf
    simp [encodeFramesGo] at hf
  | cons d rest ih =>
    intro i0 prev f hf
    have hd : d ≠ [] := hne d (by simp)
    have hrest : ∀ x ∈ rest, x ≠ [] := fun x hx => hne x (by simp [hx])
    simp only [encodeFramesGo, List.mem_cons] at hf
    rcases hf with hf | hf
    · subst hf
      show (match frameTypeOf i0 gopSize, prev with
        | FrameType.P, some prev => compressPFrame d prev quality
        | _, _ => d) ≠ []
      cases frameTypeOf i0 gopSize with
      | I => cases prev <;> simpa
      | P =>
        cases prev with
        | none => simpa
        | some p =>
          simp only [compressPFrame]
          exact stringifyPFramePayload_ne_nil _
    · exact ih hrest (i0 + 1) _ f hf

/-- Claim C8: frame-index consistency — for every encoded video (frame
    buffers all nonempty, as PNG frame files are), each index entry's offset
    is the sum of the data lengths of the earlier frames, the per-frame sizes
    sum to the length of the concatenated frame-payload region, and
    consecutive offsets are contiguous and strictly increasing (no gaps, no
    overlaps). -/
theorem vcf_frame_index_consistent (frameDatas : List (List Nat)) (fps : ℚ)
    (quality gopSize : Nat) (hne : ∀ d ∈ frameDatas, d ≠ []) :
    (∀ (i : Nat) (e : VCFIndexEntry),
        (serializeFrameIndex (encodeFrames frameDatas fps quality gopSize))[i]? = some e →
        e.offset = (((encodeFrames frameDatas fps quality gopSize).take i).map
          (fun f => f.data.length)).sum) ∧
      ((serializeFrameIndex (encodeFrames frameDatas fps quality gopSize)).map
          (fun e => e.size)).sum =
        (allFrameData (encodeFrames frameDatas fps quality gopSize)).length ∧
      (serializeFrameIndex (encodeFrames frameDatas fps quality gopSize)).Chain'
        (fun a b => b.offset = a.offset + a.size ∧ a.offset < b.offset) := by
  have hsz := encodeFramesGo_size_eq quality fps gopSize frameDatas 0 none
  have hdne := encodeFramesGo_data_ne quality fps gopSize frameDatas hne 0 none
  refine ⟨?_, ?_, ?_⟩
  · intro i e he
    have := buildFrameIndex_offset (encodeFrames frameDatas fps quality gopSize) 0 i e he
    omega
  · exact buildFrameIndex_sizes _ hsz 0
  · exact buildFrameIndex_chain _ hsz hdne 0

/-- Witness for C8 at a concrete two-frame sequence. -/
theorem vcf_frame_index_consistent_witness :
    (∀ d ∈ ([[1, 2], [3]] : List (List Nat)), d ≠ []) ∧
      ((∀ (i : Nat) (e : VCFIndexEntry),
          (serializeFrameIndex (encodeFrames [[1, 2], [3]] 30 85 1))[i]? = some e →
          e.offset = (((encodeFrames [[1, 2], [3]] 30 85 1).take i).map
            (fun f => f.data.length)).sum) ∧
        ((serializeFrameIndex (encodeFrames [[1, 2], [3]] 30 85 1)).map
            (fun e => e.size)).sum =
          (allFrameData (encodeFrames [[1, 2], [3]] 30 85 1)).length ∧
        (serializeFrameIndex (encodeFrames [[1, 2], [3]] 30 85 1)).Chain'
          (fun a b => b.offset = a.offset + a.size ∧ a.offset < b.offset)) :=
  ⟨by decide, vcf_frame_index_consistent [[1, 2], [3]] 30 85 1 (by decide)⟩

theorem jsRound_natCast (n : Nat) : jsRound (n : ℚ) = (n : ℤ) := by
  unfold jsRound
  rw [Int.floor_eq_iff]
  constructor
  · push_cast
    linarith
  · push_cast
    linarith

theorem clampByte_natCast (n : Nat) (h : n ≤ 255) : clampByte (n : ℤ) = n := by
  unfold clampByte
  omega

/-- Claim C9: for every RGB byte triple, the inverse YCoCg transform applied
    to the unmodified forward coefficients reproduces the exact original
    values after the final round and clamp. -/
theorem icf_ycocg_roundtrip (R G B : Nat) (hR : R ≤ 255) (hG : G ≤ 255) (hB : B ≤ 255) :
    ycocgToRgbPixel (rgbToYCoCgPixel R G B).1 (rgbToYCoCgPixel R G B).2.1
      (rgbToYCoCgPixel R G B).2.2 = (R, G, B) := by
  simp only [rgbToYCoCgPixel, ycocgToRgbPixel]
  ring_nf
  rw [jsRound_natCast, jsRound_natCast, jsRound_natCast,
    clampByte_natCast R hR, clampByte_natCast G hG, clampByte_natCast B hB]

/-- Witness for C9 at the pixel (250, 3, 77). -/
theorem icf_ycocg_roundtrip_witness :
    (250 : Nat) ≤ 255 ∧ (3 : Nat) ≤ 255 ∧ (77 : Nat) ≤ 255 ∧
      ycocgToRgbPixel (rgbToYCoCgPixel 250 3 77).1 (rgbToYCoCgPixel 250 3 77).2.1
        (rgbToYCoCgPixel 250 3 77).2.2 = (250, 3, 77) :=
  ⟨by decide, by decide, by decide, icf_ycocg_roundtrip 250 3 77 (by decide) (by decide) (by decide)⟩

theorem ycocgToRgbGo_alpha (ycocgData : List ℚ) :
    ∀ (n i0 i : Nat), i < n → (ycocgToRgbGo ycocgData 4 i0 n)[4 * i + 3]? = some 255 := by
  intro n
  induction n with
  | zero =>
    intro i0 i hi
    omega
  | succ m ih =>
    intro i0 i hi
    cases i with
    | zero =>
      simp [ycocgToRgbGo]
    | succ j =>
      simp only [ycocgToRgbGo]
      rw [List.getElem?_append_right (by simp; omega)]
      convert ih (i0 + 1) j (by omega) using 2

/-- Claim C10: on a 4-channel image the reconstruction loop of
    `ImageCodec.ycocgToRgb` stores the constant 255 in every pixel's alpha
    byte, whatever the coefficients (and hence whatever the original alpha,
    which `rgbToYCoCg` never even reads) were. -/
theorem icf_alpha_forced (ycocgData : List ℚ) (width height i : Nat)
    (hi : i < width * height) :
    (ycocgToRgb ycocgData width height 4)[4 * i + 3]? = some 255 :=
  ycocgToRgbGo_alpha ycocgData (width * height) 0 i hi

/-- Witness for C10: the single pixel of a 1×1 image. -/
theorem icf_alpha_forced_witness :
    (0 : Nat) < 1 * 1 ∧ (ycocgToRgb [] 1 1 4)[4 * 0 + 3]? = some 255 :=
  ⟨by decide, icf_alpha_forced [] 1 1 0 (by decide)⟩
